import Mathlib

/-!
Verification of the tradingbibot repository's execution engine, position
sizer and time-bar aggregator against its natural-language specification.

The Python sources are shallowly embedded: Python `float` money/quantity
arithmetic is modelled over `ℚ` (exact arithmetic), Python `int`
timestamps over `Int` (engine) and `Nat` (tick timestamps, milliseconds),
and Python `dict`s over association lists with first-match lookup and
overwrite-in-place insertion.
-/

namespace TradingBot

/-! ## Association lists (embedding of Python `dict`) -/

/-- First-match lookup, embedding `d.get(k)` / `d[k]`. -/
def findAL {β : Type} : List (String × β) → String → Option β
  | [], _ => none
  | (k', v) :: rest, k => if k' = k then some v else findAL rest k

/-- Overwrite-in-place insertion, embedding `d[k] = v` (keeps insertion
order of an existing key, appends a fresh key). -/
def insertAL {β : Type} : List (String × β) → String → β → List (String × β)
  | [], k, v => [(k, v)]
  | (k', v') :: rest, k, v =>
      if k' = k then (k, v) :: rest else (k', v') :: insertAL rest k v

/-- Removal of the first binding of a key, embedding `d.pop(k)`'s effect on
the dictionary. -/
def eraseAL {β : Type} : List (String × β) → String → List (String × β)
  | [], _ => []
  | (k', v') :: rest, k =>
      if k' = k then rest else (k', v') :: eraseAL rest k

/-! ## Data model (src/src/models.py, src/src/execution.py)

`Signal` is generic in the type of its `id` field (a `str` in the source;
the idempotency logic only compares ids for equality). -/

/-- Embedding of `src/src/models.py` `Signal`. -/
structure Signal (α : Type) where
  symbol : String
  side : String            -- "BUY" or "SELL"
  price : ℚ
  timestamp : Int
  reason : String
  stop_loss : ℚ
  take_profit : ℚ
  id : α
  deriving DecidableEq

/-- Embedding of `src/src/execution.py` `Position`. -/
structure Position where
  symbol : String
  side : String            -- "LONG" or "SHORT"
  entry_price : ℚ
  qty : ℚ
  timestamp : Int
  stop_loss : ℚ
  take_profit : ℚ
  deriving DecidableEq

/-- Embedding of `src/src/execution.py` `Portfolio`. -/
structure Portfolio where
  balance : ℚ
  positions : List (String × Position)
  realized_pnl : ℚ
  deriving DecidableEq

/-- Mutable state of `ExecutionEngine` (src/src/execution.py `__init__`):
`mode`, `initial_balance`, the portfolio, `max_position_pct`, the
`processed_signals` OrderedDict (insertion order, oldest first) and the
`last_closure_time` dict. -/
structure EngineState (α : Type) where
  mode : String
  initial_balance : ℚ
  portfolio : Portfolio
  max_position_pct : ℚ
  processed_signals : List α
  last_closure_time : List (String × Int)
  deriving DecidableEq

/-- `self.fee_rate = 0.0004` (src/src/execution.py line 44). -/
def feeRate : ℚ := 4 / 10000

/-- `self.max_processed_signals = 1000` (src/src/execution.py line 48). -/
def maxProcessedSignals : Nat := 1000

/-- Engine state produced by `ExecutionEngine(mode, initial_balance,
max_position_pct)`. -/
def initEngine (α : Type) (mode : String) (initial_balance : ℚ)
    (max_position_pct : ℚ) : EngineState α :=
  { mode := mode
    initial_balance := initial_balance
    portfolio := { balance := initial_balance, positions := [], realized_pnl := 0 }
    max_position_pct := max_position_pct
    processed_signals := []
    last_closure_time := [] }

/-! ## Safety checks (src/src/execution.py lines 82-113) -/

/-- Embedding of `check_min_notional`: rejects when `price * qty < 5.0`. -/
def checkMinNotional (price qty : ℚ) : Bool :=
  if price * qty < 5 then false else true

/-- Round-half-to-even to an integer, the rounding used by Python's
built-in `round`. -/
def roundHalfEven (x : ℚ) : ℤ :=
  let f := Int.floor x
  let r := x - f
  if r < 1 / 2 then f
  else if r > 1 / 2 then f + 1
  else if f % 2 = 0 then f else f + 1

/-- Embedding of `normalize_quantity` at its only call site (default
`step_size = 0.001`, hence `precision = int(round(-log10(0.001))) = 3`):
`round(qty, 3)` with Python's round-half-to-even. -/
def normalizeQuantity (qty : ℚ) : ℚ :=
  (roundHalfEven (qty * 1000) : ℚ) / 1000

/-- Embedding of `check_idempotency`: returns the accept/drop flag together
with the updated `processed_signals` list (oldest first; `popitem(last=False)`
drops the head once the size exceeds `max_processed_signals`). -/
def checkIdempotency {α : Type} [DecidableEq α] (signal_id : α) (ps : List α) :
    Bool × List α :=
  if signal_id ∈ ps then (false, ps)
  else
    let ps' := ps ++ [signal_id]
    (true, if ps'.length > maxProcessedSignals then ps'.tail else ps')

/-- Embedding of `check_cooldown`: `last_closure_time.get(symbol, 0)` and
rejection when `current_timestamp - last_time < 5000`. -/
def checkCooldown (last_closure_time : List (String × Int)) (symbol : String)
    (current_timestamp : Int) : Bool :=
  let last_time := (findAL last_closure_time symbol).getD 0
  if current_timestamp - last_time < 5000 then false else true

/-! ## Position sizing (src/src/risk_management.py) -/

/-- Embedding of `PositionSizer.calculate_position_size`. -/
def calculatePositionSize (account_balance entry_price stop_loss
    risk_per_trade_pct max_position_size_pct : ℚ) : ℚ :=
  if entry_price ≤ 0 ∨ stop_loss ≤ 0 ∨ account_balance ≤ 0 then 0
  else
    let risk_amount := account_balance * risk_per_trade_pct
    let sl_distance := |entry_price - stop_loss|
    if sl_distance = 0 then 0
    else
      let qty_risk := risk_amount / sl_distance
      let max_notional := account_balance * max_position_size_pct
      let qty_cap := max_notional / entry_price
      min qty_risk qty_cap

/-- The stop-loss actually passed to the sizer by `_open_position`
(src/src/execution.py line 159): `sl if sl > 0 else price * 0.95`. -/
def fallbackStop (price sl : ℚ) : ℚ :=
  if sl > 0 then sl else price * (95 / 100)

/-! ## Opening and closing positions (src/src/execution.py lines 150-237) -/

/-- Embedding of `_open_position`.  `now` stands for the event-loop clock
`int(asyncio.get_running_loop().time())` recorded into the position (never
read by any of the verified operations). -/
def openPosition {α : Type} (now : Int) (st : EngineState α)
    (symbol side : String) (price sl tp : ℚ) : EngineState α :=
  let qty := calculatePositionSize st.portfolio.balance price
      (fallbackStop price sl) (1 / 100) st.max_position_pct
  if qty ≤ 0 then st
  else
    let qty := normalizeQuantity qty
    if checkMinNotional price qty = false then st
    else
      let cost := qty * price
      let fee := cost * feeRate
      let total_debit := cost + fee
      if total_debit > st.portfolio.balance then st
      else
        let pos : Position :=
          { symbol := symbol, side := side, entry_price := price, qty := qty
            timestamp := now, stop_loss := sl, take_profit := tp }
        { st with portfolio :=
            { st.portfolio with
                balance := st.portfolio.balance - total_debit
                positions := insertAL st.portfolio.positions symbol pos } }

/-- Embedding of `_close_position`.  The source's `positions.pop(symbol)`
raises on a missing key; it is only ever called with the key present, so the
missing-key case is modelled as a no-op. -/
def closePosition {α : Type} (st : EngineState α) (symbol : String) (price : ℚ) :
    EngineState α :=
  match findAL st.portfolio.positions symbol with
  | none => st
  | some pos =>
      let exit_value := pos.qty * price
      let fee := exit_value * feeRate
      let pg : ℚ × ℚ :=
        if pos.side = "LONG" then
          ((price - pos.entry_price) * pos.qty, exit_value)
        else
          let initial_cost := pos.qty * pos.entry_price
          let diff := (pos.entry_price - price) / pos.entry_price
          (initial_cost * diff, initial_cost + initial_cost * diff)
      let pnl := pg.1
      let gross_return := pg.2
      let net_return := gross_return - fee
      { st with portfolio :=
          { balance := st.portfolio.balance + net_return
            positions := eraseAL st.portfolio.positions symbol
            realized_pnl := st.portfolio.realized_pnl + pnl } }

/-! ## Signal execution (src/src/execution.py lines 52-148) -/

/-- Embedding of `_execute_paper`. -/
def executePaper {α : Type} (now : Int) (st : EngineState α) (sig : Signal α) :
    EngineState α :=
  let symbol := sig.symbol
  let price := sig.price
  let timestamp := sig.timestamp
  let current_pos := findAL st.portfolio.positions symbol
  if sig.side = "BUY" then
    let step :
        EngineState α × Option Position :=
      match current_pos with
      | some pos =>
          if pos.side = "SHORT" then
            let st' := closePosition st symbol price
            ({ st' with last_closure_time :=
                insertAL st'.last_closure_time symbol timestamp }, none)
          else (st, some pos)
      | none => (st, none)
    match step.2 with
    | none =>
        if checkCooldown step.1.last_closure_time symbol timestamp = false then
          step.1
        else openPosition now step.1 symbol "LONG" price sig.stop_loss sig.take_profit
    | some _ => step.1
  else if sig.side = "SELL" then
    let step :
        EngineState α × Option Position :=
      match current_pos with
      | some pos =>
          if pos.side = "LONG" then
            let st' := closePosition st symbol price
            ({ st' with last_closure_time :=
                insertAL st'.last_closure_time symbol timestamp }, none)
          else (st, some pos)
      | none => (st, none)
    match step.2 with
    | none =>
        if checkCooldown step.1.last_closure_time symbol timestamp = false then
          step.1
        else openPosition now step.1 symbol "SHORT" price sig.stop_loss sig.take_profit
    | some _ => step.1
  else st

/-- Embedding of `on_signal`: idempotency gate, then `_execute_paper`
(both the `PAPER` branch and the unimplemented `LIVE` branch fall through to
paper execution). -/
def onSignal {α : Type} [DecidableEq α] (now : Int) (st : EngineState α)
    (sig : Signal α) : EngineState α :=
  let gate := checkIdempotency sig.id st.processed_signals
  if gate.1 = false then { st with processed_signals := gate.2 }
  else
    let st := { st with processed_signals := gate.2 }
    if st.mode = "PAPER" then executePaper now st sig
    else executePaper now st sig

/-! ## Equity (src/src/execution.py lines 249-273) -/

/-- Per-position contribution inside `get_equity`'s loop: `qty * price` for
a LONG, `initial_invest + initial_invest * (entry - price) / entry` for a
SHORT, nothing for any other side string. -/
def equityContribution (pos : Position) (current_price : ℚ) : ℚ :=
  if pos.side = "LONG" then pos.qty * current_price
  else if pos.side = "SHORT" then
    let diff := (pos.entry_price - current_price) / pos.entry_price
    let initial_invest := pos.qty * pos.entry_price
    let pnl := initial_invest * diff
    initial_invest + pnl
  else 0

/-- Embedding of `get_equity`. -/
def getEquity {α : Type} (st : EngineState α) (current_price : ℚ) : ℚ :=
  st.portfolio.balance +
    (st.portfolio.positions.map (fun kv => equityContribution kv.2 current_price)).sum

/-! ## PnL broadcaster (src/main.py lines 99-151) -/

/-- Per-position `pnl` field computed by `pnl_broadcaster` (src/main.py
line 121): `(mark - entry) * qty` when `position.side == "BUY"`, else
`(entry - mark) * qty`. -/
def broadcastPositionPnl (pos : Position) (mark : ℚ) : ℚ :=
  if pos.side = "BUY" then (mark - pos.entry_price) * pos.qty
  else (pos.entry_price - mark) * pos.qty

/-- Mark price used by `pnl_broadcaster` for a position: the aggregator's
live close if available, else the entry price (src/main.py lines 116-118). -/
def broadcastMark (marks : String → Option ℚ) (pos : Position) : ℚ :=
  (marks pos.symbol).getD pos.entry_price

/-- The `equity` field of the published `pnl` event (src/main.py line 133):
`balance + total_pnl` with `total_pnl` the sum of the per-position `pnl`
fields. -/
def broadcastEquity {α : Type} (st : EngineState α) (marks : String → Option ℚ) : ℚ :=
  st.portfolio.balance +
    (st.portfolio.positions.map
      (fun kv => broadcastPositionPnl kv.2 (broadcastMark marks kv.2))).sum

/-- Model of the `/panic` control-plane endpoint (src/api/server.py lines
53-59): it broadcasts a log line and returns; the emergency-stop logic is an
explicit `TODO` in the source, so the execution engine's state is untouched
and no lockout flag exists anywhere in the signal path. -/
def panicEndpoint {α : Type} (st : EngineState α) : EngineState α := st

/-! ## Time-bar aggregator (src/src/aggregator.py) -/

/-- A raw trade tick (the `dict` fed to `process_tick`); timestamps are
non-negative epoch milliseconds. -/
structure Tick where
  symbol : String
  price : ℚ
  qty : ℚ
  ts : Nat
  deriving DecidableEq

/-- The per-symbol working candle stored in `active_candles`. -/
structure OpenCandle where
  start : Nat
  o : ℚ
  h : ℚ
  l : ℚ
  c : ℚ
  v : ℚ
  symbol : String
  deriving DecidableEq

/-- Embedding of `src/src/models.py` `Candle` (`opn` stands for the source's
`open` field, a reserved word in Lean). -/
structure Candle where
  symbol : String
  timestamp : Nat
  opn : ℚ
  high : ℚ
  low : ℚ
  close : ℚ
  volume : ℚ
  deriving DecidableEq

/-- `candle_start = (ts // interval_ms) * interval_ms` (src/src/aggregator.py
line 32). -/
def bucketOf (interval_ms ts : Nat) : Nat :=
  ts / interval_ms * interval_ms

/-- Embedding of `_init_candle`. -/
def initCandle (symbol : String) (start : Nat) (price qty : ℚ) : OpenCandle :=
  { start := start, o := price, h := price, l := price, c := price, v := qty
    symbol := symbol }

/-- Embedding of `_emit_candle`'s conversion of the working candle to a
`Candle`. -/
def emitCandle (c : OpenCandle) : Candle :=
  { symbol := c.symbol, timestamp := c.start, opn := c.o, high := c.h
    low := c.l, close := c.c, volume := c.v }

/-- Embedding of `process_tick`: updated `active_candles` map together with
the emitted candle, if any. -/
def processTick (interval_ms : Nat) (active : List (String × OpenCandle))
    (t : Tick) : List (String × OpenCandle) × Option Candle :=
  let candle_start := bucketOf interval_ms t.ts
  match findAL active t.symbol with
  | none =>
      (insertAL active t.symbol (initCandle t.symbol candle_start t.price t.qty), none)
  | some current =>
      if candle_start > current.start then
        (insertAL active t.symbol (initCandle t.symbol candle_start t.price t.qty),
         some (emitCandle current))
      else
        (insertAL active t.symbol
          { current with
              h := max current.h t.price
              l := min current.l t.price
              c := t.price
              v := current.v + t.qty }, none)

/-- Fold of `process_tick` over a tick sequence, collecting the emitted
candles in order. -/
def runAggregator (interval_ms : Nat) : List (String × OpenCandle) → List Tick →
    List (String × OpenCandle) × List Candle
  | active, [] => (active, [])
  | active, t :: rest =>
      let step := processTick interval_ms active t
      let tail := runAggregator interval_ms step.1 rest
      (tail.1, (step.2.toList) ++ tail.2)

/-- Per-symbol timestamp monotonicity: whenever one tick precedes another
for the same symbol, its timestamp is not larger. -/
def MonoPerSymbol (ticks : List Tick) : Prop :=
  List.Pairwise (fun a b => a.symbol = b.symbol → a.ts ≤ b.ts) ticks

/-! ## Concrete states used to instantiate the theorems -/

/-- A fresh paper engine: `ExecutionEngine("PAPER", 10000.0, 0.2)`, the
configuration built in `src/main.py`. -/
def engine0 : EngineState Nat := initEngine Nat "PAPER" 10000 (1 / 5)

/-- A strategy SELL signal on BTCUSDT at price 100. -/
def sigSell100 : Signal Nat :=
  { symbol := "BTCUSDT", side := "SELL", price := 100, timestamp := 10000
    reason := "test", stop_loss := 0, take_profit := 0, id := 1 }

/-- A strategy BUY signal on BTCUSDT at price 1000 (ten times the entry of
`sigSell100`). -/
def sigBuy1000 : Signal Nat :=
  { symbol := "BTCUSDT", side := "BUY", price := 1000, timestamp := 20000
    reason := "test", stop_loss := 0, take_profit := 0, id := 2 }

/-- A strategy BUY signal on BTCUSDT at price 100. -/
def sigBuy100 : Signal Nat :=
  { symbol := "BTCUSDT", side := "BUY", price := 100, timestamp := 10000
    reason := "test", stop_loss := 0, take_profit := 0, id := 3 }

/-- An open LONG position: 1 BTCUSDT bought at 100. -/
def posLong100 : Position :=
  { symbol := "BTCUSDT", side := "LONG", entry_price := 100, qty := 1
    timestamp := 0, stop_loss := 0, take_profit := 0 }

/-- An open SHORT position: 20 BTCUSDT sold at 100. -/
def posShort100 : Position :=
  { symbol := "BTCUSDT", side := "SHORT", entry_price := 100, qty := 20
    timestamp := 0, stop_loss := 0, take_profit := 0 }

/-- An engine holding `posLong100` with 1000 cash. -/
def stLong : EngineState Nat :=
  { mode := "PAPER", initial_balance := 10000
    portfolio := { balance := 1000, positions := [("BTCUSDT", posLong100)]
                   realized_pnl := 0 }
    max_position_pct := 1 / 5, processed_signals := [], last_closure_time := [] }

/-- An engine holding `posShort100` with 8000 cash. -/
def stShort : EngineState Nat :=
  { mode := "PAPER", initial_balance := 10000
    portfolio := { balance := 8000, positions := [("BTCUSDT", posShort100)]
                   realized_pnl := 0 }
    max_position_pct := 1 / 5, processed_signals := [], last_closure_time := [] }

/-- A working candle for BTCUSDT that started at bucket 2000 from a tick at
price 10, volume 1. -/
def oc2000 : OpenCandle := initCandle "BTCUSDT" 2000 10 1

/-- An out-of-order tick for BTCUSDT: timestamp 500, so its bucket 0 lies
strictly before `oc2000.start = 2000`. -/
def tickStale : Tick := { symbol := "BTCUSDT", price := 50, qty := 2, ts := 500 }

/-- A tick for BTCUSDT in the 0-bucket (timestamp 500 ms) at price 10. -/
def tick500 : Tick := { symbol := "BTCUSDT", price := 10, qty := 1, ts := 500 }

/-- A tick for BTCUSDT in the 1000-bucket (timestamp 1500 ms) at price 20. -/
def tick1500 : Tick := { symbol := "BTCUSDT", price := 20, qty := 2, ts := 1500 }

/-- The candle emitted for the 0-bucket after `tick500` then `tick1500`. -/
def candle0 : Candle :=
  { symbol := "BTCUSDT", timestamp := 0, opn := 10, high := 10, low := 10
    close := 10, volume := 1 }

/-- The id sequence of the idempotency counterexample: id 0, then the 1000
distinct ids 1..1000, then id 0 again. -/
def idsC6 : List Nat := 0 :: ((List.range 1000).map (fun n => n + 1) ++ [0])

/-- Fold of the idempotency gate over a sequence of incoming signal ids,
recording for each id whether `check_idempotency` accepted it. -/
def runIdempotency {α : Type} [DecidableEq α] : List α → List α → List (α × Bool)
  | _, [] => []
  | ps, i :: rest =>
      let gate := checkIdempotency i ps
      (i, gate.1) :: runIdempotency gate.2 rest

/-- The `processed_signals` set left behind by a sequence of incoming ids. -/
def stateAfter {α : Type} [DecidableEq α] : List α → List α → List α
  | ps, [] => ps
  | ps, i :: rest => stateAfter (checkIdempotency i ps).2 rest

/-- Stated from the spec's words, for comparison with the code's equity and
pnl computations: unrealized PnL of a position at a mark price,
`(mark - entry) * qty` for a LONG and `(entry - mark) * qty` for a SHORT. -/
def specUnrealizedPnl (pos : Position) (mark : ℚ) : ℚ :=
  if pos.side = "LONG" then (mark - pos.entry_price) * pos.qty
  else (pos.entry_price - mark) * pos.qty

/-- Invariant of one entry of `active_candles` after the ticks in `done`
have been processed: the stored symbol matches the key, the OHLC fields are
ordered, the start is the bucket of its window, every processed tick of the
window is bounded by low/high, and no processed tick of the symbol lies in a
later bucket. -/
def ActiveInv (interval_ms : Nat) (done : List Tick) (s : String)
    (oc : OpenCandle) : Prop :=
  oc.symbol = s ∧
  (oc.l ≤ oc.o ∧ oc.o ≤ oc.h ∧ oc.l ≤ oc.c ∧ oc.c ≤ oc.h) ∧
  oc.start % interval_ms = 0 ∧
  (∀ t ∈ done, t.symbol = s → bucketOf interval_ms t.ts = oc.start →
    oc.l ≤ t.price ∧ t.price ≤ oc.h) ∧
  (∀ t ∈ done, t.symbol = s → bucketOf interval_ms t.ts ≤ oc.start)

/-- OHLC well-formedness of an emitted candle, start aligned to the
interval. -/
def wfCandle (interval_ms : Nat) (c : Candle) : Prop :=
  c.low ≤ c.opn ∧ c.opn ≤ c.high ∧ c.low ≤ c.close ∧ c.close ≤ c.high ∧
  c.timestamp % interval_ms = 0

/-! ## Theorems -/

theorem findAL_insertAL_self {β : Type} (l : List (String × β)) (k : String) (v : β) :
    findAL (insertAL l k v) k = some v := by
  induction l with
  | nil => simp [insertAL, findAL]
  | cons hd tl ih =>
      obtain ⟨k', v'⟩ := hd
      by_cases h : k' = k <;> simp [insertAL, findAL, h, ih]

theorem findAL_insertAL_ne {β : Type} (l : List (String × β)) (k k' : String) (v : β)
    (h : k ≠ k') : findAL (insertAL l k v) k' = findAL l k' := by
  induction l with
  | nil => simp [insertAL, findAL, h]
  | cons hd tl ih =>
      obtain ⟨k₀, v₀⟩ := hd
      by_cases h₀ : k₀ = k
      · subst h₀
        simp [insertAL, findAL, h]
      · simp [insertAL, h₀, findAL]
        by_cases h₁ : k₀ = k' <;> simp [h₁, ih]

theorem findAL_eq_none {β : Type} (l : List (String × β)) (k : String)
    (h : k ∉ l.map Prod.fst) : findAL l k = none := by
  induction l with
  | nil => rfl
  | cons hd tl ih =>
      obtain ⟨k₀, v₀⟩ := hd
      simp only [List.map_cons, List.mem_cons] at h
      push_neg at h
      simp only [findAL]
      rw [if_neg (Ne.symm h.1)]
      exact ih h.2

theorem findAL_eraseAL_self {β : Type} (l : List (String × β)) (k : String)
    (h : (l.map Prod.fst).Nodup) : findAL (eraseAL l k) k = none := by
  induction l with
  | nil => rfl
  | cons hd tl ih =>
      obtain ⟨k₀, v₀⟩ := hd
      simp only [List.map_cons, List.nodup_cons] at h
      by_cases h₀ : k₀ = k
      · subst h₀
        simp only [eraseAL, if_pos rfl]
        exact findAL_eq_none tl k₀ h.1
      · simp only [eraseAL, if_neg h₀, findAL, if_neg h₀]
        exact ih h.2

theorem sell_ne_buy : (("SELL" : String) = "BUY") = False := eq_false (by decide)

theorem short_ne_long : (("SHORT" : String) = "LONG") = False := eq_false (by decide)

theorem long_ne_short : (("LONG" : String) = "SHORT") = False := eq_false (by decide)

theorem long_ne_buy : (("LONG" : String) = "BUY") = False := eq_false (by decide)

/-- C3: the `/panic` endpoint of src/api/server.py sets no lockout flag (the
emergency stop is a `TODO` in the source), and `on_signal` checks none, so a
signal arriving after a panic is still executed and changes the portfolio.
Here: after `POST /panic`, a BUY signal on a fresh paper engine still opens
a LONG position and debits the balance, contradicting the claim that every
post-panic signal is rejected with no portfolio change. -/
theorem panic_then_signal_still_executes :
    (onSignal 0 (panicEndpoint engine0) sigBuy100).portfolio.balance ≠
      (panicEndpoint engine0).portfolio.balance ∧
    findAL (onSignal 0 (panicEndpoint engine0) sigBuy100).portfolio.positions
      "BTCUSDT" ≠ none := by
  have hrun : (onSignal 0 (panicEndpoint engine0) sigBuy100).portfolio =
      { balance := 39996 / 5
        positions := [("BTCUSDT",
          { symbol := "BTCUSDT", side := "LONG", entry_price := 100, qty := 20
            timestamp := 0, stop_loss := 0, take_profit := 0 })]
        realized_pnl := 0 } := by
    simp only [onSignal, panicEndpoint, checkIdempotency, engine0, initEngine,
      sigBuy100, executePaper, checkCooldown, findAL, openPosition,
      calculatePositionSize, fallbackStop, normalizeQuantity, roundHalfEven,
      checkMinNotional, feeRate, maxProcessedSignals, insertAL]
    norm_num
  refine ⟨?_, ?_⟩
  · rw [hrun]
    simp only [panicEndpoint, engine0, initEngine]
    norm_num
  · rw [hrun]
    simp [findAL]

/-- C4 counterexample: the source's cooldown window is 5000 ms
(src/src/execution.py line 110), not the claimed 3000 ms.  A signal arriving
4000 ms after the last closure — which the claim, with its 3000 ms window,
says must proceed — is dropped by `check_cooldown`. -/
theorem cooldown_counterexample_3000ms :
    checkCooldown [("BTCUSDT", 1000000)] "BTCUSDT" 1004000 = false ∧
      (1004000 : Int) - 1000000 ≥ 3000 := by
  constructor <;> decide

/-- C4 (amended: `cooldown_ms = 5000`): a signal arriving exactly at
`last_close_ts + 5000` passes the cooldown gate, and a signal for a symbol
with no open position whose timestamp is strictly less than 5000 ms after
the recorded last closure leaves the portfolio unchanged. -/
theorem cooldown_gate_amended {α : Type} [DecidableEq α] (now : Int)
    (st : EngineState α) (sig : Signal α) (last : Int)
    (hlast : (findAL st.last_closure_time sig.symbol).getD 0 = last) :
    checkCooldown st.last_closure_time sig.symbol (last + 5000) = true ∧
    (sig.timestamp - last < 5000 →
      findAL st.portfolio.positions sig.symbol = none →
      (onSignal now st sig).portfolio = st.portfolio) := by
  constructor
  · simp only [checkCooldown, hlast]
    norm_num
  · intro hts hpos
    by_cases hdup : sig.id ∈ st.processed_signals
    · simp [onSignal, checkIdempotency, hdup]
    · simp only [onSignal, checkIdempotency, hdup, if_false, ite_self]
      by_cases hb : sig.side = "BUY"
      · simp [executePaper, hb, hpos, checkCooldown, hlast, hts]
      · by_cases hs : sig.side = "SELL"
        · simp [executePaper, hb, hs, hpos, checkCooldown, hlast, hts]
        · simp [executePaper, hb, hs]

/-- C4 witness: with last closure of BTCUSDT recorded at 1000000 ms, a
signal at 1005000 ms passes the gate, and the SELL signal at 10000 ms
(strictly inside the 5000 ms window) leaves the portfolio unchanged. -/
theorem cooldown_gate_amended_witness :
    checkCooldown ({ engine0 with
        last_closure_time := [("BTCUSDT", 1000000)] } : EngineState Nat).last_closure_time
      "BTCUSDT" (1000000 + 5000) = true ∧
    (onSignal 0 ({ engine0 with last_closure_time := [("BTCUSDT", 1000000)] } :
        EngineState Nat) sigSell100).portfolio =
      ({ engine0 with last_closure_time := [("BTCUSDT", 1000000)] } :
        EngineState Nat).portfolio := by
  refine ⟨(cooldown_gate_amended 0 _ sigSell100 1000000 (by decide)).1, ?_⟩
  exact (cooldown_gate_amended 0 _ sigSell100 1000000 (by decide)).2
    (by decide) (by decide)

/-- C5 counterexample: the source adds the *gross* PnL to `realized_pnl`
(src/src/execution.py line 234), not `gross_pnl - fee` as claimed.  Closing
the 1-unit LONG entered at 100 at exit price 110 increments `realized_pnl`
by exactly 10, while the claim demands `10 - 110 * fee_rate`. -/
theorem close_realized_counterexample :
    (closePosition stLong "BTCUSDT" 110).portfolio.realized_pnl = 10 ∧
    stLong.portfolio.realized_pnl = 0 ∧
    (10 : ℚ) ≠ 0 + (10 - 1 * 110 * feeRate) := by
  refine ⟨?_, by simp [stLong], ?_⟩
  · simp only [closePosition, stLong, posLong100, findAL, eraseAL, feeRate]
    norm_num
  · norm_num [feeRate]

/-- C5 (amended): closing a position credits the balance with exactly
`initial_cost + gross_pnl - fee` (with the strict gross-PnL forms, the
SHORT percent-of-initial formula being equal to the strict form whenever
`entry ≠ 0`), but adds the *gross* PnL — the fee not deducted — to
`realized_pnl`. -/
theorem close_accounting_amended {α : Type} (st : EngineState α)
    (symbol : String) (price : ℚ) (pos : Position)
    (hfind : findAL st.portfolio.positions symbol = some pos) :
    (pos.side = "LONG" →
      (closePosition st symbol price).portfolio.balance =
        st.portfolio.balance + (pos.entry_price * pos.qty +
          (price - pos.entry_price) * pos.qty - pos.qty * price * feeRate) ∧
      (closePosition st symbol price).portfolio.realized_pnl =
        st.portfolio.realized_pnl + (price - pos.entry_price) * pos.qty) ∧
    (pos.side = "SHORT" → pos.entry_price ≠ 0 →
      (closePosition st symbol price).portfolio.balance =
        st.portfolio.balance + (pos.entry_price * pos.qty +
          (pos.entry_price - price) * pos.qty - pos.qty * price * feeRate) ∧
      (closePosition st symbol price).portfolio.realized_pnl =
        st.portfolio.realized_pnl + (pos.entry_price - price) * pos.qty) := by
  constructor
  · intro hside
    simp only [closePosition, hfind, hside, if_pos]
    exact ⟨by ring, by ring_nf⟩
  · intro hside hentry
    have hneq : pos.side ≠ "LONG" := by
      rw [hside]; intro h; exact absurd h (by decide)
    simp only [closePosition, hfind, hneq, if_neg, if_false]
    refine ⟨?_, ?_⟩
    · field_simp
      ring
    · field_simp
      ring

/-- C5 witness: the amended accounting at a concrete close — the 20-unit
SHORT entered at 100 closed at 110. -/
theorem close_accounting_amended_witness :
    posShort100.side = "SHORT" ∧ posShort100.entry_price ≠ 0 ∧
    ((closePosition stShort "BTCUSDT" 110).portfolio.balance =
      stShort.portfolio.balance + (posShort100.entry_price * posShort100.qty +
        (posShort100.entry_price - 110) * posShort100.qty -
        posShort100.qty * 110 * feeRate) ∧
    (closePosition stShort "BTCUSDT" 110).portfolio.realized_pnl =
      stShort.portfolio.realized_pnl +
        (posShort100.entry_price - 110) * posShort100.qty) := by
  refine ⟨rfl, by norm_num [posShort100], ?_⟩
  exact (close_accounting_amended stShort "BTCUSDT" 110 posShort100 rfl).2
    rfl (by norm_num [posShort100])

/-- C9 counterexample: when `stop_loss == 0`, `_open_position` substitutes
`price * 0.95` for both sides (src/src/execution.py line 159), not the
claimed `entry * 0.98` (BUY) / `entry * 1.02` (SELL): at entry 100 the
substituted stop is 95, which is neither 98 nor 102. -/
theorem sl_fallback_counterexample :
    fallbackStop 100 0 = 95 ∧ (95 : ℚ) ≠ 100 * (98 / 100) ∧
      (95 : ℚ) ≠ 100 * (102 / 100) := by
  refine ⟨?_, by norm_num, by norm_num⟩
  norm_num [fallbackStop]

/-- C9 (amended): with the substituted stop `price * 0.95` (both sides),
the pre-rounding quantity equals
`min(balance * 0.01 / |entry - stop|, balance * max_position_pct / entry)`
whenever the sizer's positivity guards pass, and a computed quantity ≤ 0 is
rejected with no state change. -/
theorem sizing_amended {α : Type} (now : Int) (st : EngineState α)
    (symbol side : String) (price sl tp : ℚ) :
    (0 < price → 0 < st.portfolio.balance → 0 < fallbackStop price sl →
      price ≠ fallbackStop price sl →
      calculatePositionSize st.portfolio.balance price (fallbackStop price sl)
          (1 / 100) st.max_position_pct =
        min (st.portfolio.balance * (1 / 100) / |price - fallbackStop price sl|)
          (st.portfolio.balance * st.max_position_pct / price)) ∧
    (calculatePositionSize st.portfolio.balance price (fallbackStop price sl)
        (1 / 100) st.max_position_pct ≤ 0 →
      openPosition now st symbol side price sl tp = st) := by
  constructor
  · intro hp hb hs hne
    have h1 : ¬ (price ≤ 0 ∨ fallbackStop price sl ≤ 0 ∨ st.portfolio.balance ≤ 0) := by
      push_neg
      exact ⟨hp, hs, hb⟩
    have h2 : ¬ (|price - fallbackStop price sl| = 0) := by
      simp only [abs_eq_zero, sub_eq_zero]
      exact hne
    simp only [calculatePositionSize, h1, h2, if_neg, if_false]
  · intro hqty
    simp only [openPosition, hqty, if_pos]

/-- C9 witness: sizing a BUY at entry 100 with no stop on a fresh 10000
balance (first conjunct), and rejection with no state change on a
zero-balance engine where the computed quantity is 0 (second conjunct). -/
theorem sizing_amended_witness :
    (calculatePositionSize engine0.portfolio.balance 100 (fallbackStop 100 0)
        (1 / 100) engine0.max_position_pct =
      min (engine0.portfolio.balance * (1 / 100) / |100 - fallbackStop 100 0|)
        (engine0.portfolio.balance * engine0.max_position_pct / 100)) ∧
    openPosition 0 (initEngine Nat "PAPER" 0 (1 / 5)) "BTCUSDT" "LONG" 100 0 0 =
      initEngine Nat "PAPER" 0 (1 / 5) := by
  constructor
  · exact (sizing_amended 0 engine0 "BTCUSDT" "LONG" 100 0 0).1
      (by norm_num) (by norm_num [engine0, initEngine])
      (by norm_num [fallbackStop]) (by norm_num [fallbackStop])
  · exact (sizing_amended 0 (initEngine Nat "PAPER" 0 (1 / 5)) "BTCUSDT" "LONG"
      100 0 0).2 (by norm_num [calculatePositionSize, initEngine, fallbackStop])

/-- C2 counterexample: `get_equity` adds each position's full market value,
not its unrealized PnL: for a 1-unit LONG entered at 100 with cash 1000 and
mark 110, the code reports equity 1110, while the claim's
`cash + (mark - entry) * qty` is 1010.  Moreover `pnl_broadcaster` tests
`position.side == "BUY"` while the engine stores `"LONG"`, so the published
per-position pnl of that LONG is `(entry - mark) * qty = -10`, not the
claimed `(mark - entry) * qty = 10`. -/
theorem equity_counterexample :
    getEquity stLong 110 = 1110 ∧
    (1110 : ℚ) ≠ 1000 + (110 - 100) * 1 ∧
    broadcastPositionPnl posLong100 110 = -10 ∧
    ((-10 : ℚ)) ≠ (110 - 100) * 1 := by
  refine ⟨?_, by norm_num, ?_, by norm_num⟩
  · norm_num [getEquity, equityContribution, stLong, posLong100]
  · simp only [broadcastPositionPnl, posLong100]
    rw [if_neg (by decide : ¬ ("LONG" : String) = "BUY")]
    norm_num

/-- C2 (amended): `get_equity` reports cash plus, per position, the
*initial cost plus* the unrealized PnL (the SHORT percent-of-initial form
coinciding with the strict form when `entry ≠ 0`); and `pnl_broadcaster`
publishes `(entry - mark) * qty` as the pnl of every position whose side is
not the string "BUY" — in particular for every engine-held position, whose
side is "LONG" or "SHORT" — with its `equity` field equal to
`balance + Σ` of those published pnls. -/
theorem equity_amended {α : Type} (st : EngineState α) (mark : ℚ)
    (marks : String → Option ℚ)
    (hsides : ∀ kv ∈ st.portfolio.positions,
      kv.2.side = "LONG" ∨ (kv.2.side = "SHORT" ∧ kv.2.entry_price ≠ 0)) :
    getEquity st mark = st.portfolio.balance +
      (st.portfolio.positions.map
        (fun kv => kv.2.entry_price * kv.2.qty + specUnrealizedPnl kv.2 mark)).sum ∧
    (∀ kv ∈ st.portfolio.positions,
      broadcastPositionPnl kv.2 (broadcastMark marks kv.2) =
        (kv.2.entry_price - broadcastMark marks kv.2) * kv.2.qty) ∧
    broadcastEquity st marks = st.portfolio.balance +
      (st.portfolio.positions.map
        (fun kv => (kv.2.entry_price - broadcastMark marks kv.2) * kv.2.qty)).sum := by
  have hpnl : ∀ kv ∈ st.portfolio.positions,
      broadcastPositionPnl kv.2 (broadcastMark marks kv.2) =
        (kv.2.entry_price - broadcastMark marks kv.2) * kv.2.qty := by
    intro kv hkv
    have hne : kv.2.side ≠ "BUY" := by
      rcases hsides kv hkv with h | ⟨h, _⟩ <;> rw [h] <;> decide
    simp [broadcastPositionPnl, hne]
  refine ⟨?_, hpnl, ?_⟩
  · unfold getEquity
    congr 1
    refine congrArg List.sum (List.map_congr_left ?_)
    intro kv hkv
    rcases hsides kv hkv with h | ⟨h, hentry⟩
    · have hside : kv.2.side = "LONG" := h
      simp only [equityContribution, specUnrealizedPnl, hside, if_pos]
      ring
    · have hside : kv.2.side = "SHORT" := h
      simp only [equityContribution, specUnrealizedPnl, hside]
      rw [if_neg (by decide : ¬ ("SHORT" : String) = "LONG"),
        if_neg (by decide : ¬ ("SHORT" : String) = "LONG")]
      simp only [if_true]
      field_simp
      ring
  · unfold broadcastEquity
    congr 1
    exact congrArg List.sum (List.map_congr_left hpnl)

/-- C2 witness: the amended description at the concrete LONG state — cash
1000, 1-unit LONG at entry 100, mark 110 everywhere. -/
theorem equity_amended_witness :
    getEquity stLong 110 = stLong.portfolio.balance +
      (stLong.portfolio.positions.map
        (fun kv => kv.2.entry_price * kv.2.qty + specUnrealizedPnl kv.2 110)).sum ∧
    broadcastEquity stLong (fun _ => some 110) = stLong.portfolio.balance +
      (stLong.portfolio.positions.map
        (fun kv => (kv.2.entry_price -
          broadcastMark (fun _ => some 110) kv.2) * kv.2.qty)).sum := by
  have h := equity_amended stLong 110 (fun _ => some 110) (by
    intro kv hkv
    have hkv' : kv = ("BTCUSDT", posLong100) := by
      simpa [stLong] using hkv
    rw [hkv']
    left
    rfl)
  exact ⟨h.1, h.2.2⟩

/-- C7 counterexample: a tick whose bucket lies strictly before the open
candle's start is *not* discarded — `process_tick` falls into the update
branch and merges it into the current candle: the stale tick at price 50
changes the stored high/close/volume, so the open-candles map is not
unchanged (though indeed no candle is emitted). -/
theorem stale_tick_counterexample :
    bucketOf 1000 tickStale.ts < oc2000.start ∧
    (processTick 1000 [("BTCUSDT", oc2000)] tickStale).1 ≠ [("BTCUSDT", oc2000)] ∧
    (processTick 1000 [("BTCUSDT", oc2000)] tickStale).2 = none := by
  refine ⟨by norm_num [bucketOf, tickStale, oc2000, initCandle], ?_, ?_⟩
  · simp only [processTick, bucketOf, tickStale, oc2000, initCandle, findAL,
      insertAL, if_pos, if_neg]
    norm_num
  · simp only [processTick, bucketOf, tickStale, oc2000, initCandle, findAL,
      insertAL]
    norm_num

/-- C7 (amended): a tick whose bucket is strictly less than the current
candle's start emits no candle and *merges* into the current candle:
the symbol's entry gets `high := max high price`, `low := min low price`,
`close := price`, `volume += qty`, same start; other symbols' entries are
untouched. -/
theorem stale_tick_merged (interval_ms : Nat)
    (active : List (String × OpenCandle)) (t : Tick) (current : OpenCandle)
    (hfind : findAL active t.symbol = some current)
    (hlt : bucketOf interval_ms t.ts < current.start) :
    (processTick interval_ms active t).2 = none ∧
    findAL (processTick interval_ms active t).1 t.symbol =
      some { current with
        h := max current.h t.price
        l := min current.l t.price
        c := t.price
        v := current.v + t.qty } ∧
    (∀ s, s ≠ t.symbol →
      findAL (processTick interval_ms active t).1 s = findAL active s) := by
  have hngt : ¬ (bucketOf interval_ms t.ts > current.start) := by
    exact Nat.lt_asymm hlt
  refine ⟨?_, ?_, ?_⟩
  · simp [processTick, hfind, hngt]
  · simp [processTick, hfind, hngt, findAL_insertAL_self]
  · intro s hs
    simp only [processTick, hfind, hngt, if_neg, if_false]
    exact findAL_insertAL_ne active t.symbol s _ (fun h => hs h.symm)

/-- C7 witness: the amended behaviour at the concrete stale tick — the
BTCUSDT candle that started at 2000 absorbs the tick with timestamp 500. -/
theorem stale_tick_merged_witness :
    (processTick 1000 [("BTCUSDT", oc2000)] tickStale).2 = none ∧
    findAL (processTick 1000 [("BTCUSDT", oc2000)] tickStale).1 "BTCUSDT" =
      some { oc2000 with
        h := max oc2000.h tickStale.price
        l := min oc2000.l tickStale.price
        c := tickStale.price
        v := oc2000.v + tickStale.qty } := by
  have h := stale_tick_merged 1000 [("BTCUSDT", oc2000)] tickStale oc2000
    rfl (by norm_num [bucketOf, tickStale, oc2000, initCandle])
  exact ⟨h.1, h.2.1⟩

/-- C1: a reversal signal closes the opposite-side position at the signal
price, but *never* opens the new position — `_execute_paper` records
`last_closure_time[symbol] = signal.timestamp` before checking the cooldown
against that same timestamp, so `check_cooldown` always computes
`timestamp - timestamp = 0 < 5000` and drops the re-open.  The portfolio
after the signal is exactly the close's portfolio, with no position left on
the symbol — contradicting the claim (and the spec's acceptance scenario 3)
that a new position of the signalled side is opened. -/
theorem reversal_closes_but_never_reopens {α : Type} [DecidableEq α]
    (now : Int) (st : EngineState α) (sig : Signal α) (pos : Position)
    (hid : sig.id ∉ st.processed_signals)
    (hfind : findAL st.portfolio.positions sig.symbol = some pos)
    (hnodup : (st.portfolio.positions.map Prod.fst).Nodup)
    (hside : (sig.side = "BUY" ∧ pos.side = "SHORT") ∨
      (sig.side = "SELL" ∧ pos.side = "LONG")) :
    (onSignal now st sig).portfolio =
      (closePosition st sig.symbol sig.price).portfolio ∧
    findAL (onSignal now st sig).portfolio.positions sig.symbol = none := by
  have hclose : ∀ (st' : EngineState α), st'.portfolio = st.portfolio →
      (closePosition st' sig.symbol sig.price).portfolio =
        (closePosition st sig.symbol sig.price).portfolio := by
    intro st' hp
    simp [closePosition, hp, hfind]
  rcases hside with ⟨hb, hp⟩ | ⟨hs, hp⟩
  · have hps : pos.side = "LONG" ↔ False := by
      rw [hp]; simp
    simp only [onSignal, checkIdempotency, hid, if_neg, if_false, ite_self,
      executePaper, hb, if_pos, hfind, hp, hps]
    simp only [closePosition, hfind, checkCooldown, findAL_insertAL_self,
      Option.getD_some, sub_self]
    norm_num
    exact findAL_eraseAL_self st.portfolio.positions sig.symbol hnodup
  · simp only [onSignal, checkIdempotency, hid, if_neg, if_false, ite_self,
      executePaper, hs, sell_ne_buy, hfind, hp, eq_self_iff_true, if_true]
    simp only [closePosition, hfind, checkCooldown, findAL_insertAL_self,
      Option.getD_some, sub_self]
    norm_num
    exact findAL_eraseAL_self st.portfolio.positions sig.symbol hnodup

/-- C1 witness: the concrete reversal — an engine holding the 20-unit SHORT
at 100 receives a fresh BUY at 1000; the SHORT is closed and no LONG is
opened. -/
theorem reversal_closes_but_never_reopens_witness :
    (2 : Nat) ∉ stShort.processed_signals ∧
    ((onSignal 0 stShort sigBuy1000).portfolio =
      (closePosition stShort "BTCUSDT" 1000).portfolio ∧
    findAL (onSignal 0 stShort sigBuy1000).portfolio.positions "BTCUSDT" = none) := by
  refine ⟨by decide, ?_⟩
  exact reversal_closes_but_never_reopens 0 stShort sigBuy1000 posShort100
    (by decide) rfl (by decide) (Or.inl ⟨rfl, rfl⟩)

/-- C6 (amended): a signal whose id is still in the bounded recent-signals
set is dropped silently — the engine state, portfolio included, is exactly
unchanged.  (Because the set is bounded at 1000 ids with FIFO eviction, the
claim's global "exactly one per id" holds only until the id is evicted; see
the counterexample.) -/
theorem duplicate_signal_dropped {α : Type} [DecidableEq α] (now : Int)
    (st : EngineState α) (sig : Signal α)
    (hdup : sig.id ∈ st.processed_signals) :
    onSignal now st sig = st := by
  simp [onSignal, checkIdempotency, hdup]

/-- C6 witness: a duplicate of the already-recorded id 1 is dropped with the
engine unchanged. -/
theorem duplicate_signal_dropped_witness :
    (1 : Nat) ∈ ({ engine0 with processed_signals := [1] } :
      EngineState Nat).processed_signals ∧
    onSignal 0 ({ engine0 with processed_signals := [1] } : EngineState Nat)
        sigSell100 =
      { engine0 with processed_signals := [1] } := by
  exact ⟨by decide, duplicate_signal_dropped 0 _ sigSell100 (by decide)⟩

/-- C10: the non-negative-balance guard exists only at open; a close credits
`gross_return - fee`, which for a SHORT is `qty * (2*entry - exit) - fee` and
is negative when the exit is far enough above twice the entry.  Concretely:
from a fresh 10000 paper engine, a SELL at 100 opens a 20-unit SHORT
(balance 7999.2), and a BUY at 1000 closes it, crediting
`20*(200 - 1000) - 8 = -16008` and leaving the cash balance at `-8008.8 < 0`. -/
theorem negative_balance_reachable :
    (onSignal 0 (onSignal 0 engine0 sigSell100) sigBuy1000).portfolio.balance < 0 := by
  have h1 : onSignal 0 engine0 sigSell100 =
      (EngineState.mk "PAPER" 10000
        (Portfolio.mk (39996 / 5)
          [("BTCUSDT", Position.mk "BTCUSDT" "SHORT" 100 20 0 0 0)] 0)
        (1 / 5) [1] [] : EngineState Nat) := by
    simp only [onSignal, checkIdempotency, engine0, initEngine, sigSell100,
      executePaper, checkCooldown, findAL, openPosition, calculatePositionSize,
      fallbackStop, normalizeQuantity, roundHalfEven, checkMinNotional, feeRate,
      maxProcessedSignals, insertAL, sell_ne_buy, if_false]
    norm_num
  rw [h1]
  have h2 : (onSignal 0 (EngineState.mk "PAPER" 10000
      (Portfolio.mk (39996 / 5)
        [("BTCUSDT", Position.mk "BTCUSDT" "SHORT" 100 20 0 0 0)] 0)
      (1 / 5) [1] [] : EngineState Nat) sigBuy1000).portfolio.balance =
      -40044 / 5 := by
    simp only [onSignal, checkIdempotency, sigBuy1000, executePaper,
      checkCooldown, findAL, closePosition, eraseAL, insertAL, openPosition,
      calculatePositionSize, fallbackStop, normalizeQuantity, roundHalfEven,
      checkMinNotional, feeRate, maxProcessedSignals, short_ne_long, if_false]
    norm_num [short_ne_long]
  rw [h2]
  norm_num

theorem runIdempotency_append {α : Type} [DecidableEq α] (l1 : List α) :
    ∀ (ps l2 : List α),
      runIdempotency ps (l1 ++ l2) =
        runIdempotency ps l1 ++ runIdempotency (stateAfter ps l1) l2 := by
  induction l1 with
  | nil => intro ps l2; rfl
  | cons a rest ih =>
      intro ps l2
      simp only [List.cons_append, runIdempotency, stateAfter]
      rw [show rest.append l2 = rest ++ l2 from rfl, ih]

theorem runIdempotency_fresh {α : Type} [DecidableEq α] :
    ∀ (l ps : List α), (∀ a ∈ l, a ∉ ps) → l.Nodup →
      ps.length ≤ maxProcessedSignals →
      runIdempotency ps l = l.map (fun a => (a, true)) ∧
      stateAfter ps l =
        (ps ++ l).drop (ps.length + l.length - maxProcessedSignals) := by
  intro l
  induction l with
  | nil =>
      intro ps _ _ hlen
      refine ⟨rfl, ?_⟩
      simp [stateAfter, Nat.sub_eq_zero_of_le hlen]
  | cons a rest ih =>
      intro ps hfresh hnodup hlen
      have ha : a ∉ ps := hfresh a (List.mem_cons_self a rest)
      obtain ⟨har, hndr⟩ := List.nodup_cons.mp hnodup
      have hmaxval : maxProcessedSignals = 1000 := rfl
      rcases Nat.lt_or_ge ps.length maxProcessedSignals with hlt | hge
      · have hcond : ¬ ((ps ++ [a]).length > maxProcessedSignals) := by
          simp only [List.length_append, List.length_singleton, hmaxval]
          rw [hmaxval] at hlt
          omega
        have hgate : checkIdempotency a ps = (true, ps ++ [a]) := by
          simp only [checkIdempotency]
          rw [if_neg ha, if_neg hcond]
        have hfresh' : ∀ b ∈ rest, b ∉ ps ++ [a] := by
          intro b hb
          simp only [List.mem_append, List.mem_singleton]
          rintro (hbp | rfl)
          · exact hfresh b (List.mem_cons_of_mem a hb) hbp
          · exact har hb
        have hlen' : (ps ++ [a]).length ≤ maxProcessedSignals := by
          simp only [List.length_append, List.length_singleton, hmaxval]
          rw [hmaxval] at hlt
          omega
        obtain ⟨ihrun, ihstate⟩ := ih (ps ++ [a]) hfresh' hndr hlen'
        constructor
        · simp only [runIdempotency, hgate, ihrun, List.map_cons]
        · have hidx : (ps ++ [a]).length + rest.length - maxProcessedSignals =
              ps.length + (a :: rest).length - maxProcessedSignals := by
            simp only [List.length_append, List.length_singleton, List.length_cons,
              List.length_nil, hmaxval]
            omega
          simp only [stateAfter, hgate, ihstate, List.append_assoc,
            List.singleton_append, hidx]
      · have hmax : ps.length = 1000 := by
          rw [hmaxval] at hlen hge
          omega
        obtain ⟨x, xs, rfl⟩ : ∃ x xs, ps = x :: xs := by
          cases ps with
          | nil => simp at hmax
          | cons x xs => exact ⟨x, xs, rfl⟩
        simp only [List.length_cons] at hmax
        have hcond : ((x :: xs) ++ [a]).length > maxProcessedSignals := by
          simp only [List.cons_append, List.length_append, List.length_cons,
            List.length_singleton, hmaxval]
          omega
        have hgate : checkIdempotency a (x :: xs) = (true, xs ++ [a]) := by
          simp only [checkIdempotency]
          rw [if_neg ha, if_pos hcond]
          rfl
        have hfresh' : ∀ b ∈ rest, b ∉ xs ++ [a] := by
          intro b hb
          simp only [List.mem_append, List.mem_singleton]
          rintro (hbp | rfl)
          · exact hfresh b (List.mem_cons_of_mem a hb) (List.mem_cons_of_mem x hbp)
          · exact har hb
        have hlen' : (xs ++ [a]).length ≤ maxProcessedSignals := by
          simp only [List.length_append, List.length_singleton, hmaxval]
          omega
        obtain ⟨ihrun, ihstate⟩ := ih (xs ++ [a]) hfresh' hndr hlen'
        constructor
        · simp only [runIdempotency, hgate, ihrun, List.map_cons]
        · have hidx : (x :: xs).length + (a :: rest).length - maxProcessedSignals =
              rest.length + 1 := by
            simp only [List.length_cons, hmaxval]
            omega
          have hidx' : (xs ++ [a]).length + rest.length - maxProcessedSignals =
              rest.length := by
            simp only [List.length_append, List.length_singleton, hmaxval]
            omega
          simp only [stateAfter, hgate, ihstate, hidx', hidx]
          rw [List.cons_append, List.drop_succ_cons, List.append_assoc,
            List.singleton_append]

/-- C6 counterexample: "among all signals sharing one id exactly one is
acted upon" fails once the 1000-entry FIFO window evicts the id: in the
sequence id 0, then the 1000 distinct ids 1..1000, then id 0 again, the
insertion of id 1000 evicts id 0, and both occurrences of id 0 pass the
idempotency gate — id 0 is acted upon twice. -/
theorem idempotency_eviction_counterexample :
    ((runIdempotency ([] : List Nat) idsC6).filter
      (fun p => p.1 == 0 && p.2)).length = 2 := by
  have hsplit : idsC6 = (0 :: (List.range 1000).map (fun n => n + 1)) ++ [0] := by
    simp only [idsC6, List.cons_append]
  have h0batch : (0 : Nat) ∉ (List.range 1000).map (fun n => n + 1) := by
    intro h
    simp only [List.mem_map] at h
    obtain ⟨n, _, hn⟩ := h
    omega
  have hnd : (0 :: (List.range 1000).map (fun n => n + 1)).Nodup := by
    refine List.nodup_cons.mpr ⟨h0batch, ?_⟩
    exact (List.nodup_range 1000).map (fun n m h => by omega)
  obtain ⟨hrun1, hstate1⟩ := runIdempotency_fresh
    (0 :: (List.range 1000).map (fun n => n + 1)) []
    (by intro b _ hb; exact (List.not_mem_nil b) hb) hnd
    (by simp [maxProcessedSignals])
  have hstate1' : stateAfter ([] : List Nat)
      (0 :: (List.range 1000).map (fun n => n + 1)) =
      (List.range 1000).map (fun n => n + 1) := by
    rw [hstate1]
    have hidx : ([] : List Nat).length +
        (0 :: (List.range 1000).map (fun n => n + 1)).length -
        maxProcessedSignals = 1 := by
      simp [maxProcessedSignals]
    rw [hidx, List.nil_append, List.drop_succ_cons, List.drop_zero]
  have hgatef : (checkIdempotency (0 : Nat)
      ((List.range 1000).map (fun n => n + 1))).1 = true := by
    simp only [checkIdempotency]
    rw [if_neg h0batch]
  have hrun2 : runIdempotency ((List.range 1000).map (fun n => n + 1)) [0] =
      [(0, true)] := by
    show (0, (checkIdempotency (0 : Nat)
      ((List.range 1000).map (fun n => n + 1))).1) :: _ = [(0, true)]
    rw [hgatef]
    rfl
  rw [hsplit, runIdempotency_append, hrun1, hstate1', hrun2]
  rw [List.filter_append]
  have hmid : ((0 :: (List.range 1000).map (fun n => n + 1)).map
      (fun a => (a, true))).filter (fun p => p.1 == 0 && p.2) = [(0, true)] := by
    simp only [List.map_cons, List.filter_cons]
    rw [if_pos (by decide)]
    have hnil : (((List.range 1000).map (fun n => n + 1)).map
        (fun a => (a, true))).filter (fun p => p.1 == 0 && p.2) = [] := by
      rw [List.filter_eq_nil_iff]
      intro p hp
      simp only [List.mem_map] at hp
      obtain ⟨q, hq, rfl⟩ := hp
      obtain ⟨n, _, rfl⟩ := hq
      simp
    rw [hnil]
  rw [hmid]
  rw [show (([(0, true)] : List (Nat × Bool)).filter
    (fun p => p.1 == 0 && p.2)) = [(0, true)] from by decide]
  rfl

theorem bucketOf_mono (interval_ms : Nat) {ts1 ts2 : Nat} (h : ts1 ≤ ts2) :
    bucketOf interval_ms ts1 ≤ bucketOf interval_ms ts2 :=
  Nat.mul_le_mul_right _ (Nat.div_le_div_right h)

theorem bucketOf_mod (interval_ms ts : Nat) :
    bucketOf interval_ms ts % interval_ms = 0 :=
  Nat.mul_mod_left _ _

theorem findAL_insertAL_none {β : Type} (l : List (String × β)) (k s : String)
    (v : β) (h : findAL (insertAL l k v) s = none) :
    s ≠ k ∧ findAL l s = none := by
  by_cases hs : s = k
  · subst hs
    rw [findAL_insertAL_self] at h
    exact absurd h (by simp)
  · refine ⟨hs, ?_⟩
    rw [findAL_insertAL_ne l k s v (fun he => hs he.symm)] at h
    exact h

theorem activeInv_append_other (interval_ms : Nat) (done : List Tick)
    (u : Tick) (s : String) (oc : OpenCandle) (hs : s ≠ u.symbol)
    (h : ActiveInv interval_ms done s oc) :
    ActiveInv interval_ms (done ++ [u]) s oc := by
  obtain ⟨hsym, hwf, hmod, hbound, hlatest⟩ := h
  refine ⟨hsym, hwf, hmod, ?_, ?_⟩
  · intro t ht hts htb
    rcases List.mem_append.mp ht with htd | htu
    · exact hbound t htd hts htb
    · obtain rfl := List.mem_singleton.mp htu
      exact absurd hts.symm hs
  · intro t ht hts
    rcases List.mem_append.mp ht with htd | htu
    · exact hlatest t htd hts
    · obtain rfl := List.mem_singleton.mp htu
      exact absurd hts.symm hs

theorem noneInv_insert (done : List Tick) (u : Tick)
    (active : List (String × OpenCandle)) (v : OpenCandle)
    (hnone : ∀ s, findAL active s = none → ∀ t ∈ done, t.symbol ≠ s) :
    ∀ s, findAL (insertAL active u.symbol v) s = none →
      ∀ t ∈ done ++ [u], t.symbol ≠ s := by
  intro s hsn t ht
  obtain ⟨hsk, hact⟩ := findAL_insertAL_none _ _ _ _ hsn
  rcases List.mem_append.mp ht with htd | htu
  · exact hnone s hact t htd
  · obtain rfl := List.mem_singleton.mp htu
    exact fun he => hsk he.symm

theorem runAggregator_inv (interval_ms : Nat) :
    ∀ (remaining done : List Tick) (active : List (String × OpenCandle)),
      List.Pairwise (fun a b => a.symbol = b.symbol → a.ts ≤ b.ts) remaining →
      (∀ s oc, findAL active s = some oc → ActiveInv interval_ms done s oc) →
      (∀ s, findAL active s = none → ∀ t ∈ done, t.symbol ≠ s) →
      ∀ c ∈ (runAggregator interval_ms active remaining).2,
        wfCandle interval_ms c ∧
        ∀ t ∈ done ++ remaining, t.symbol = c.symbol →
          bucketOf interval_ms t.ts = c.timestamp →
          c.low ≤ t.price ∧ t.price ≤ c.high := by
  intro remaining
  induction remaining with
  | nil =>
      intro done active _ _ _ c hc
      simp [runAggregator] at hc
  | cons u rest ih =>
      intro done active hpair hinv hnone c hc
      obtain ⟨hu, hrest⟩ := List.pairwise_cons.mp hpair
      cases hfind : findAL active u.symbol with
      | none =>
          have hstep : processTick interval_ms active u =
              (insertAL active u.symbol
                (initCandle u.symbol (bucketOf interval_ms u.ts) u.price u.qty),
               none) := by
            simp [processTick, hfind]
          have hc' : c ∈ (runAggregator interval_ms
              (insertAL active u.symbol
                (initCandle u.symbol (bucketOf interval_ms u.ts) u.price u.qty))
              rest).2 := by
            simp only [runAggregator, hstep] at hc
            simpa using hc
          have hinv' : ∀ s oc,
              findAL (insertAL active u.symbol
                (initCandle u.symbol (bucketOf interval_ms u.ts) u.price u.qty)) s =
                some oc →
              ActiveInv interval_ms (done ++ [u]) s oc := by
            intro s oc hoc
            by_cases hs : s = u.symbol
            · subst hs
              rw [findAL_insertAL_self] at hoc
              obtain rfl := Option.some.inj hoc
              refine ⟨rfl, by simp [initCandle], by simp [initCandle, bucketOf_mod], ?_, ?_⟩
              · intro t ht hts htb
                rcases List.mem_append.mp ht with htd | htu
                · exact absurd hts (hnone _ hfind t htd)
                · obtain rfl := List.mem_singleton.mp htu
                  simp [initCandle]
              · intro t ht hts
                rcases List.mem_append.mp ht with htd | htu
                · exact absurd hts (hnone _ hfind t htd)
                · obtain rfl := List.mem_singleton.mp htu
                  simp [initCandle]
            · rw [findAL_insertAL_ne active u.symbol s _ (fun he => hs he.symm)] at hoc
              exact activeInv_append_other interval_ms done u s oc hs (hinv s oc hoc)
          have := ih (done ++ [u]) _ hrest hinv'
            (noneInv_insert done u active _ hnone) c hc'
          refine ⟨this.1, ?_⟩
          intro t ht
          have ht' : t ∈ (done ++ [u]) ++ rest := by
            simpa [List.append_assoc] using ht
          exact this.2 t ht'
      | some cur =>
          obtain ⟨hsym, hwf, hmod, hbound, hlatest⟩ := hinv u.symbol cur hfind
          by_cases hgt : bucketOf interval_ms u.ts > cur.start
          · -- close and emit the running candle, open a fresh one
            have hstep : processTick interval_ms active u =
                (insertAL active u.symbol
                  (initCandle u.symbol (bucketOf interval_ms u.ts) u.price u.qty),
                 some (emitCandle cur)) := by
              simp [processTick, hfind, hgt]
            have hc2 : c = emitCandle cur ∨
                c ∈ (runAggregator interval_ms
                  (insertAL active u.symbol
                    (initCandle u.symbol (bucketOf interval_ms u.ts) u.price u.qty))
                  rest).2 := by
              simp only [runAggregator, hstep] at hc
              simpa using hc
            rcases hc2 with rfl | hc'
            · -- the emitted candle itself
              refine ⟨⟨hwf.1, hwf.2.1, hwf.2.2.1, hwf.2.2.2, hmod⟩, ?_⟩
              intro t ht hts htb
              have htsu : t.symbol = u.symbol := by
                rw [hts]
                exact hsym
              rcases List.mem_append.mp ht with htd | htr
              · exact hbound t htd htsu htb
              · rcases List.mem_cons.mp htr with rfl | htr'
                · exact absurd htb (Nat.ne_of_gt hgt)
                · have hts2 : u.ts ≤ t.ts := hu t htr' htsu.symm
                  have : bucketOf interval_ms u.ts ≤ bucketOf interval_ms t.ts :=
                    bucketOf_mono interval_ms hts2
                  rw [htb] at this
                  exact absurd (Nat.lt_of_lt_of_le hgt this) (lt_irrefl _)
            · -- candles emitted later
              have hinv' : ∀ s oc,
                  findAL (insertAL active u.symbol
                    (initCandle u.symbol (bucketOf interval_ms u.ts) u.price u.qty)) s =
                    some oc →
                  ActiveInv interval_ms (done ++ [u]) s oc := by
                intro s oc hoc
                by_cases hs : s = u.symbol
                · subst hs
                  rw [findAL_insertAL_self] at hoc
                  obtain rfl := Option.some.inj hoc
                  refine ⟨rfl, by simp [initCandle], by simp [initCandle, bucketOf_mod], ?_, ?_⟩
                  · intro t ht hts htb
                    rcases List.mem_append.mp ht with htd | htu
                    · have := Nat.lt_of_le_of_lt (hlatest t htd hts) hgt
                      rw [htb] at this
                      simp [initCandle] at this
                    · obtain rfl := List.mem_singleton.mp htu
                      simp [initCandle]
                  · intro t ht hts
                    rcases List.mem_append.mp ht with htd | htu
                    · have := Nat.le_of_lt (Nat.lt_of_le_of_lt (hlatest t htd hts) hgt)
                      simpa [initCandle] using this
                    · obtain rfl := List.mem_singleton.mp htu
                      simp [initCandle]
                · rw [findAL_insertAL_ne active u.symbol s _ (fun he => hs he.symm)] at hoc
                  exact activeInv_append_other interval_ms done u s oc hs (hinv s oc hoc)
              have := ih (done ++ [u]) _ hrest hinv'
                (noneInv_insert done u active _ hnone) c hc'
              refine ⟨this.1, ?_⟩
              intro t ht
              have ht' : t ∈ (done ++ [u]) ++ rest := by
                simpa [List.append_assoc] using ht
              exact this.2 t ht'
          · -- merge the tick into the running candle
            have hstep : processTick interval_ms active u =
                (insertAL active u.symbol
                  { cur with
                      h := max cur.h u.price
                      l := min cur.l u.price
                      c := u.price
                      v := cur.v + u.qty }, none) := by
              simp [processTick, hfind, hgt]
            have hc' : c ∈ (runAggregator interval_ms
                (insertAL active u.symbol
                  { cur with
                      h := max cur.h u.price
                      l := min cur.l u.price
                      c := u.price
                      v := cur.v + u.qty }) rest).2 := by
              simp only [runAggregator, hstep] at hc
              simpa using hc
            have hinv' : ∀ s oc,
                findAL (insertAL active u.symbol
                  { cur with
                      h := max cur.h u.price
                      l := min cur.l u.price
                      c := u.price
                      v := cur.v + u.qty }) s = some oc →
                ActiveInv interval_ms (done ++ [u]) s oc := by
              intro s oc hoc
              by_cases hs : s = u.symbol
              · subst hs
                rw [findAL_insertAL_self] at hoc
                obtain rfl := Option.some.inj hoc
                refine ⟨hsym, ?_, hmod, ?_, ?_⟩
                · refine ⟨?_, ?_, ?_, ?_⟩
                  · exact le_trans (min_le_left _ _) hwf.1
                  · exact le_trans hwf.2.1 (le_max_left _ _)
                  · exact min_le_right _ _
                  · exact le_max_right _ _
                · intro t ht hts htb
                  rcases List.mem_append.mp ht with htd | htu
                  · obtain ⟨hl, hh⟩ := hbound t htd hts htb
                    exact ⟨le_trans (min_le_left _ _) hl, le_trans hh (le_max_left _ _)⟩
                  · obtain rfl := List.mem_singleton.mp htu
                    exact ⟨min_le_right _ _, le_max_right _ _⟩
                · intro t ht hts
                  rcases List.mem_append.mp ht with htd | htu
                  · exact hlatest t htd hts
                  · obtain rfl := List.mem_singleton.mp htu
                    exact Nat.le_of_not_lt hgt
              · rw [findAL_insertAL_ne active u.symbol s _ (fun he => hs he.symm)] at hoc
                exact activeInv_append_other interval_ms done u s oc hs (hinv s oc hoc)
            have := ih (done ++ [u]) _ hrest hinv'
              (noneInv_insert done u active _ hnone) c hc'
            refine ⟨this.1, ?_⟩
            intro t ht
            have ht' : t ∈ (done ++ [u]) ++ rest := by
              simpa [List.append_assoc] using ht
            exact this.2 t ht'

/-- C8: for every tick sequence with per-symbol monotone timestamps, every
candle emitted by the aggregator satisfies low ≤ open ≤ high and
low ≤ close ≤ high, its start is a multiple of `interval_ms`
(`(ts // interval_ms) * interval_ms`), and its low/high bound the price of
every tick of its window (same symbol, same bucket as the candle start). -/
theorem emitted_candle_invariants (interval_ms : Nat) (ticks : List Tick)
    (hmono : MonoPerSymbol ticks) :
    ∀ c ∈ (runAggregator interval_ms [] ticks).2,
      (c.low ≤ c.opn ∧ c.opn ≤ c.high ∧ c.low ≤ c.close ∧ c.close ≤ c.high ∧
        c.timestamp % interval_ms = 0) ∧
      ∀ t ∈ ticks, t.symbol = c.symbol →
        bucketOf interval_ms t.ts = c.timestamp →
        c.low ≤ t.price ∧ t.price ≤ c.high := by
  intro c hc
  have h := runAggregator_inv interval_ms ticks [] [] hmono
    (by intro s oc hoc; exact absurd hoc (by simp [findAL]))
    (by intro s _ t ht; exact absurd ht (List.not_mem_nil t))
    c hc
  exact ⟨h.1, fun t ht => h.2 t (by simpa using ht)⟩

/-- C8 witness: the concrete two-tick run — a tick at 500 ms opens the
0-bucket candle at price 10, a tick at 1500 ms closes and emits it; the
emitted candle satisfies all the invariants. -/
theorem emitted_candle_invariants_witness :
    MonoPerSymbol [tick500, tick1500] ∧
    candle0 ∈ (runAggregator 1000 [] [tick500, tick1500]).2 ∧
    ((candle0.low ≤ candle0.opn ∧ candle0.opn ≤ candle0.high ∧
      candle0.low ≤ candle0.close ∧ candle0.close ≤ candle0.high ∧
      candle0.timestamp % 1000 = 0) ∧
    ∀ t ∈ [tick500, tick1500], t.symbol = candle0.symbol →
      bucketOf 1000 t.ts = candle0.timestamp →
      candle0.low ≤ t.price ∧ t.price ≤ candle0.high) := by
  have hmono : MonoPerSymbol [tick500, tick1500] := by
    unfold MonoPerSymbol
    refine List.pairwise_cons.mpr ⟨?_, List.pairwise_singleton _ _⟩
    intro t ht _
    obtain rfl := List.mem_singleton.mp ht
    decide
  have hmem : candle0 ∈ (runAggregator 1000 [] [tick500, tick1500]).2 := by
    have : (runAggregator 1000 [] [tick500, tick1500]).2 = [candle0] := by
      simp only [runAggregator, processTick, bucketOf, findAL, insertAL,
        initCandle, emitCandle, tick500, tick1500, candle0]
      norm_num [findAL]
    rw [this]
    exact List.mem_singleton.mpr rfl
  exact ⟨hmono, hmem,
    emitted_candle_invariants 1000 [tick500, tick1500] hmono candle0 hmem⟩

end TradingBot

